import Mathlib

/-!
Shallow embedding of the Task Intelligence Engine of a personal to-do
application backend (file backend/main.py): the natural-language task
parser, the schedule-suggestion scorer, the deadline-suggestion generator,
the smart-reminder-interval calculator and the productivity-insight
generator.

Modelling conventions.  Text is a list of characters.  Timestamps are
integers counting microseconds since an epoch that falls on a local
midnight, so a day is a fixed 86400000000 and the Python
datetime.replace(hour=h, minute=0, second=0, microsecond=0) is floor
division to the day start plus h hours.  datetime.now() is an explicit
now parameter; where the number and order of clock reads matters it is an
explicit clock stream consumed read by read.  The external library call
dateutil.parser.parse is modelled as a parameter dparse : Str → Option ℤ,
with none standing for a raised parse error.  Python float arithmetic in
the completion-ratio check is idealised as exact arithmetic: the
comparison completed / total > 0.8 becomes 4 * total < 5 * completed and
the truncation int(completed / total * 100) becomes the integer division
completed * 100 / total, both exact for non-negative operands.
Character classes of the regular expressions and of str.lower, str.split
and str.strip are modelled over ASCII.
-/

abbrev Str := List Char

/-- Python text.lower(), ASCII case folding. -/
def lower (s : Str) : Str := s.map Char.toLower

/-- Whether w occurs at the start of s (exact characters). -/
def headMatches : Str → Str → Bool
  | [], _ => true
  | _ :: _, [] => false
  | a :: w, b :: s => a == b && headMatches w s

/-- Python substring containment, needle in haystack. -/
def containsSub (w : Str) : Str → Bool
  | [] => headMatches w []
  | c :: s => headMatches w (c :: s) || containsSub w s

/-- Whether any keyword of the group occurs as a substring, the
any(word in lower_text for word in group) idiom. -/
def anyKw (ws : List Str) (s : Str) : Bool := ws.any (fun w => containsSub w s)

def urgentKws : List Str := (["urgent", "asap", "critical"].map String.toList)
def highKws : List Str := (["high priority", "important"].map String.toList)
def lowKws : List Str := (["low priority", "minor"].map String.toList)
def studyKws : List Str := (["study", "exam", "homework", "assignment"].map String.toList)
def workKws : List Str := (["work", "meeting", "project", "presentation"].map String.toList)
def personalKws : List Str := (["personal", "home", "family"].map String.toList)
def healthKws : List Str := (["health", "exercise", "gym", "workout"].map String.toList)
def datePhraseKws : List Str := (["today", "tomorrow", "next week", "next month"].map String.toList)

/-- Priority detection: keyword groups tested in fixed precedence order. -/
def detectPriority (s : Str) : String :=
  if anyKw urgentKws s then "urgent"
  else if anyKw highKws s then "high"
  else if anyKw lowKws s then "low"
  else "medium"

/-- Tag detection: the four keyword groups are tested independently,
in the fixed order study, work, personal, health. -/
def detectTags (s : Str) : List String :=
  (if anyKw studyKws s then ["study"] else []) ++
  (if anyKw workKws s then ["work"] else []) ++
  (if anyKw personalKws s then ["personal"] else []) ++
  (if anyKw healthKws s then ["health"] else [])

def hourU : ℤ := 3600000000
def dayU : ℤ := 86400000000

/-- Length of the maximal run of characters satisfying p at the head. -/
def runLen (p : Char → Bool) : Str → ℕ
  | [] => 0
  | c :: s => if p c then runLen p s + 1 else 0

/-- Whether the first n characters of s exist and are all decimal digits. -/
def digitsAt (s : Str) (n : ℕ) : Bool :=
  (s.take n).length == n && (s.take n).all Char.isDigit

/-- Value of a digit string, int(group). -/
def natOfDigits (s : Str) : ℕ := s.foldl (fun n c => 10 * n + (c.toNat - 48)) 0

/-- Match of the slash-date pattern at the start of s, returning the
matched text.  The pattern is one-or-two digits, a slash, one-or-two
digits, a slash, two-to-four digits; the digit counts are greedy, and
because the character after a maximal digit run can never be another
digit, backtracking can never produce a match that maximal munch misses. -/
def matchSlashDate (s : Str) : Option Str :=
  let r1 := runLen Char.isDigit s
  if 1 ≤ r1 && r1 ≤ 2 then
    match s.drop r1 with
    | '/' :: s2 =>
      let r2 := runLen Char.isDigit s2
      if 1 ≤ r2 && r2 ≤ 2 then
        match s2.drop r2 with
        | '/' :: s3 =>
          let r3 := runLen Char.isDigit s3
          if 2 ≤ r3 then some (s.take (r1 + 1 + r2 + 1 + min r3 4)) else none
        | _ => none
      else none
    | _ => none
  else none

/-- Match of the ISO-date pattern at the start of s: exactly four digits,
a dash, exactly two digits, a dash, exactly two digits. -/
def matchIsoDate (s : Str) : Option Str :=
  if digitsAt s 4 then
    match s.drop 4 with
    | '-' :: s1 =>
      if digitsAt s1 2 then
        match s1.drop 2 with
        | '-' :: s2 =>
          if digitsAt s2 2 then
            some (s.take 4 ++ '-' :: (s1.take 2 ++ '-' :: s2.take 2))
          else none
        | _ => none
      else none
    | _ => none
  else none

def monthNames : List String :=
  ["jan", "feb", "mar", "apr", "may", "jun", "jul", "aug", "sep", "oct", "nov", "dec"]

/-- Match of the month-name-day pattern at the start of s: a three-letter
month name, a greedy run of lowercase letters, a space, then one or two
digits.  A run shorter than the maximal one would leave a lowercase letter
where the space is required, so maximal munch is exact here too. -/
def matchMonthDate (s : Str) : Option Str :=
  match monthNames.findSome? (fun m => if headMatches m.toList s then some m.toList else none) with
  | none => none
  | some mp =>
    let rest := s.drop mp.length
    let k := runLen (fun c => 'a' ≤ c && c ≤ 'z') rest
    match rest.drop k with
    | ' ' :: r2 =>
      let rd := runLen Char.isDigit r2
      if 1 ≤ rd then some (mp ++ rest.take k ++ ' ' :: r2.take (min rd 2)) else none
    | _ => none

/-- Leftmost search: the first position, scanning left to right, where the
single-position matcher succeeds, as re.search does. -/
def searchPat {α : Type} (m : Str → Option α) : Str → Option α
  | [] => m []
  | c :: s =>
    match m (c :: s) with
    | some g => some g
    | none => searchPat m s

/-- Python str.strip and str.split whitespace class, ASCII. -/
def isPySpace (c : Char) : Bool :=
  c == ' ' || c == '\t' || c == '\n' || c == '\r' || c == '\x0b' || c == '\x0c'

def timeUnits : List String := ["hour", "hr", "minute", "min"]

/-- Match of the duration pattern at the start of s: a greedy digit run,
optional whitespace, then the first of hour, hr, minute, min that occurs
(the trailing optional letter s does not affect the captured groups).
Returns the numeric value and the unit group. -/
def matchDuration (s : Str) : Option (ℕ × String) :=
  let r := runLen Char.isDigit s
  if r = 0 then none
  else
    let s1 := s.drop r
    let s2 := s1.drop (runLen isPySpace s1)
    match timeUnits.findSome? (fun u => if headMatches u.toList s2 then some u else none) with
    | some u => some (natOfDigits (s.take r), u)
    | none => none

/-- First successful candidate of a pattern, fed to the date parser; on a
parse failure the pattern loop silently moves on to the continuation.
This is the body of the for-loop over date patterns: if the regular
expression finds a match, the match is parsed and a success breaks out of
the loop, while a parse error is swallowed and scanning continues. -/
def scanStep (dparse : Str → Option ℤ) (m : Option Str) (k : Option ℤ) : Option ℤ :=
  match m with
  | none => k
  | some g =>
    match dparse g with
    | some d => some d
    | none => k

/-- The date-pattern loop: slash date, then ISO date, then month-name day. -/
def scanDatePatterns (dparse : Str → Option ℤ) (s : Str) : Option ℤ :=
  scanStep dparse (searchPat matchSlashDate s)
    (scanStep dparse (searchPat matchIsoDate s)
      (scanStep dparse (searchPat matchMonthDate s) none))

/-- Due-date extraction: the four literal relative phrases are tested as
plain substrings, in order; only when none occurs are the regular
expression date patterns scanned. -/
def extractDueDate (dparse : Str → Option ℤ) (now : ℤ) (s : Str) : Option ℤ :=
  if containsSub ("today".toList) s then some now
  else if containsSub ("tomorrow".toList) s then some (now + dayU)
  else if containsSub ("next week".toList) s then some (now + 7 * dayU)
  else if containsSub ("next month".toList) s then some (now + 30 * dayU)
  else scanDatePatterns dparse s

/-- Estimated-duration extraction: hours are converted to minutes. -/
def extractEstimatedTime (s : Str) : Option ℕ :=
  match searchPat matchDuration s with
  | none => none
  | some (v, u) => if u == "hour" || u == "hr" then some (v * 60) else some v

/-- Word character of the regular-expression class backslash-w, ASCII. -/
def isWordChar (c : Char) : Bool :=
  ('a' ≤ c && c ≤ 'z') || ('A' ≤ c && c ≤ 'Z') || c.isDigit || c == '_'

/-- Case-insensitive match of the lowercase keyword w at the start of s. -/
def headMatchesCI : Str → Str → Bool
  | [], _ => true
  | _ :: _, [] => false
  | a :: w, b :: s => a == b.toLower && headMatchesCI w s

/-- Whether the last character of the keyword is a word character; this is
invariant under case, so it is also the word-ness of the last matched
character of a case-insensitive occurrence. -/
def lastIsWord (w : Str) : Bool :=
  match w.reverse with
  | [] => false
  | c :: _ => isWordChar c

/-- Word-boundary test after an occurrence of w at the start of s: the
boundary holds when exactly one side of the position is a word character,
and the end of the string counts as a non-word side. -/
def wordEndOk (w s : Str) : Bool :=
  match s.drop w.length with
  | [] => lastIsWord w
  | c :: _ => lastIsWord w != isWordChar c

/-- One pass of re.sub removing every word-boundary-delimited,
case-insensitive occurrence of w; prev records whether the character just
before the current position is a word character (false at the start of the
string).  After a removed occurrence the previous character is the last
matched one, whose word-ness is lastIsWord w; a removed occurrence ends at
a word boundary, so scanning the remainder with that context is exact.
The fuel argument only bounds the recursion: every step consumes at least
one character, so fuel equal to the length of the string is never
exhausted. -/
def goRemove (w : Str) : ℕ → Bool → Str → Str
  | 0, _, s => s
  | _ + 1, _, [] => []
  | f + 1, prev, c :: rest =>
    if (prev != isWordChar c) && headMatchesCI w (c :: rest) && wordEndOk w (c :: rest) then
      goRemove w f (lastIsWord w) (rest.drop (w.length - 1))
    else
      c :: goRemove w f (isWordChar c) rest

/-- re.sub of a word-boundary-wrapped keyword by the empty string,
case-insensitively, over the original-case title. -/
def removeWord (w : Str) (s : Str) : Str := goRemove w s.length false s

def remove_words : List Str :=
  (["urgent", "asap", "high priority", "low priority", "today", "tomorrow",
    "next week", "next month", "important", "critical"].map String.toList)

/-- Python str.split(): whitespace-run-separated words, no empty pieces.
Fuel bounds the recursion and is never exhausted from length of the
string, since every step consumes at least one character. -/
def pySplitAux : ℕ → Str → List Str
  | 0, _ => []
  | _ + 1, [] => []
  | f + 1, c :: s =>
    if isPySpace c then pySplitAux f s
    else
      ((c :: s).takeWhile (fun x => !isPySpace x)) ::
        pySplitAux f (s.dropWhile (fun x => !isPySpace x))

def pySplit (s : Str) : List Str := pySplitAux s.length s

/-- Python space.join. -/
def joinSpace : List Str → Str
  | [] => []
  | w :: ws =>
    match ws with
    | [] => w
    | _ :: _ => w ++ ' ' :: joinSpace ws

/-- Python str.strip(). -/
def pyStrip (s : Str) : Str :=
  ((s.dropWhile isPySpace).reverse.dropWhile isPySpace).reverse

/-- Title cleanup: successively remove each keyword of the fixed removal
list from the original-case text, then collapse whitespace. -/
def cleanTitle (text : Str) : Str :=
  pyStrip (joinSpace (pySplit (remove_words.foldl (fun t w => removeWord w t) text)))

structure ParsedTask where
  title : Str
  priority : String
  tags : List String
  dueDate : Option ℤ
  estimatedTime : Option ℕ
  status : String
  aiSuggested : Bool
deriving DecidableEq

/-- The natural-language task parser, parse_natural_language of the
backend: priority, tags, due date and estimated time are extracted from
the lowercased text, the title is cleaned from the original-case text and
falls back to the raw input when the cleanup leaves it empty. -/
def parse_natural_language (dparse : Str → Option ℤ) (now : ℤ) (text : Str) : ParsedTask :=
  { title := if cleanTitle text = [] then text else cleanTitle text
    priority := detectPriority (lower text)
    tags := detectTags (lower text)
    dueDate := extractDueDate dparse now (lower text)
    estimatedTime := extractEstimatedTime (lower text)
    status := "pending"
    aiSuggested := true }

/-- The engine-relevant fields of a task record: the remaining fields of
the backend Task model (id, description, timestamps, subtasks and so on)
are never read by the engine components modelled here. -/
structure TaskItem where
  priority : String
  tags : List String
  status : String
  dueDate : Option ℤ
deriving DecidableEq

structure ScheduleSuggestion where
  time : ℤ
  reason : String
  score : ℤ
deriving DecidableEq

/-- datetime.replace(hour := h, minute 0, second 0, microsecond 0):
floor to the current day start, then add h hours. -/
def atHour (t : ℤ) (h : ℤ) : ℤ := (Int.fdiv t dayU) * dayU + h * hourU

/-- The roll-to-tomorrow rule for a fixed daily slot that has passed. -/
def rollover (slot now : ℤ) : ℤ := if slot < now then slot + dayU else slot

/-- The candidate list of get_schedule_suggestions in generation order:
exactly one priority-based candidate, then the study slot, then the work
slot. -/
def scheduleCandidates (t : TaskItem) (now : ℤ) : List ScheduleSuggestion :=
  (if t.priority = "urgent" then
    [⟨now, "High priority task - schedule immediately", 100⟩]
   else if t.priority = "high" then
    [⟨now + 2 * hourU, "High priority - schedule within 2 hours", 90⟩]
   else
    [⟨now + dayU, "Normal priority - schedule for tomorrow", 70⟩]) ++
  (if "study" ∈ t.tags then
    [⟨rollover (atHour now 9) now,
      "Study tasks are best done in the morning when mind is fresh", 85⟩]
   else []) ++
  (if "work" ∈ t.tags then
    [⟨rollover (atHour now 10) now,
      "Work tasks fit best during standard working hours", 80⟩]
   else [])

/-- Stable insertion for a descending sort by score: an element moves past
exactly those elements whose score is strictly greater, so equal scores
keep their original relative order, as Python list.sort does. -/
def insertDesc (x : ScheduleSuggestion) : List ScheduleSuggestion → List ScheduleSuggestion
  | [] => [x]
  | y :: ys => if y.score ≤ x.score then x :: y :: ys else y :: insertDesc x ys

/-- Stable sort by score descending, suggestions.sort(score, reverse). -/
def sortDesc : List ScheduleSuggestion → List ScheduleSuggestion
  | [] => []
  | x :: xs => insertDesc x (sortDesc xs)

/-- get_schedule_suggestions: generate, sort by score descending (stable),
keep the first three. -/
def get_schedule_suggestions (t : TaskItem) (now : ℤ) : List ScheduleSuggestion :=
  (sortDesc (scheduleCandidates t now)).take 3

structure DeadlineSuggestion where
  date : ℤ
  label : String
  reason : String
  confidence : ℤ
deriving DecidableEq

/-- The per-priority deadline table of get_deadline_suggestions, before
the complexity adjustment; any priority other than urgent, high and
medium falls to the low branch. -/
def deadline_base (priority : String) (now : ℤ) : List DeadlineSuggestion :=
  if priority = "urgent" then
    [⟨now, "Today", "Urgent priority - immediate attention required", 95⟩,
     ⟨now + 4 * hourU, "In 4 hours", "Quick turnaround for urgent tasks", 90⟩]
  else if priority = "high" then
    [⟨now + dayU, "Tomorrow", "High priority - schedule within 24 hours", 90⟩,
     ⟨now + 2 * dayU, "In 2 days", "Allows time for preparation", 85⟩]
  else if priority = "medium" then
    [⟨now + 3 * dayU, "In 3 days", "Balanced timeframe for medium priority", 85⟩,
     ⟨now + 7 * dayU, "Next week", "Comfortable timeline for planning", 80⟩]
  else
    [⟨now + 7 * dayU, "Next week", "Low priority - can be scheduled flexibly", 75⟩,
     ⟨now + 14 * dayU, "In 2 weeks", "Extended timeline for low priority tasks", 70⟩]

def complexSuffix : String := " (Complex task requires extra time)"

/-- The complexity adjustment applied to one suggestion: append the fixed
suffix to the reason and push the date two days further (the isoformat
round-trip of the date in the code is the identity in this model). -/
def complexAdjust (s : DeadlineSuggestion) : DeadlineSuggestion :=
  { s with reason := s.reason ++ complexSuffix, date := s.date + 2 * dayU }

/-- get_deadline_suggestions: the priority table, then, when the estimated
time exceeds 240 minutes, the complexity adjustment on every entry. -/
def get_deadline_suggestions (priority : String) (estimatedTime : ℤ) (now : ℤ) :
    List DeadlineSuggestion :=
  if estimatedTime > 240 then (deadline_base priority now).map complexAdjust
  else deadline_base priority now

/-- The fixed reminder-offset table keyed by priority. -/
def reminder_rules : List (String × List ℤ) :=
  [("urgent", [5, 15, 60]), ("high", [15, 60, 240]),
   ("medium", [30, 120, 1440]), ("low", [60, 1440])]

/-- calculate_smart_reminder_minutes: dictionary lookup with the medium
row as the default for an unrecognized priority. -/
def calculate_smart_reminder_minutes (priority : String) : List ℤ :=
  (reminder_rules.lookup priority).getD ((reminder_rules.lookup "medium").getD [])

structure AIInsight where
  type : String
  message : String
  relatedTaskId : Option String
deriving DecidableEq

def overdueMsg (n : ℕ) : String :=
  "You have " ++ toString n ++ " overdue task(s). Consider rescheduling or prioritizing them."

def noDatesMsg (n : ℕ) : String :=
  toString n ++ " tasks don\x27t have due dates. Adding deadlines can improve completion rates."

def tipMsg (p : ℕ) : String :=
  "Great job! You\x27ve completed " ++ toString p ++ "% of your tasks. Keep up the momentum!"

/-- The overdue test of the insight generator for a single task under a
fixed now: a present due date strictly in the past on a task that is not
completed. -/
def overduePred (now : ℤ) (t : TaskItem) : Bool :=
  match t.dueDate with
  | none => false
  | some d => decide (d < now) && !(t.status == "completed")

/-- The missing-due-date test: no due date and not completed. -/
def noDuePred (t : TaskItem) : Bool := t.dueDate.isNone && !(t.status == "completed")

/-- The number of completed tasks. -/
def completedCount (tasks : List TaskItem) : ℕ :=
  (tasks.filter (fun t => t.status == "completed")).length

/-- The completion percentage of the tip message,
int(completed / len(tasks) * 100), as exact integer division. -/
def completedPct (tasks : List TaskItem) : ℕ :=
  completedCount tasks * 100 / tasks.length

/-- generate_insights with a single now value: the overdue warning, then
the missing-due-dates suggestion, then the completion tip; the tip check
requires a non-empty collection before the ratio is compared, mirroring
the short-circuit conjunction of the code. -/
def generate_insights (tasks : List TaskItem) (now : ℤ) : List AIInsight :=
  (if 0 < (tasks.filter (overduePred now)).length then
    [⟨"warning", overdueMsg (tasks.filter (overduePred now)).length, none⟩]
   else []) ++
  (if 5 < (tasks.filter noDuePred).length then
    [⟨"suggestion", noDatesMsg (tasks.filter noDuePred).length, none⟩]
   else []) ++
  (if tasks ≠ [] ∧ 4 * tasks.length < 5 * completedCount tasks then
    [⟨"tip", tipMsg (completedPct tasks), none⟩]
   else [])

/-- The overdue comprehension as the code actually executes it: the
condition calls datetime.now() afresh for every task whose due date is
present, so the clock is a stream read at increasing indices.  Returns
the filtered list together with the next unread clock index. -/
def overdueClocked (clock : ℕ → ℤ) : List TaskItem → ℕ → List TaskItem × ℕ
  | [], k => ([], k)
  | t :: ts, k =>
    match t.dueDate with
    | none => overdueClocked clock ts k
    | some d =>
      (if decide (d < clock k) && !(t.status == "completed")
       then t :: (overdueClocked clock ts (k + 1)).1
       else (overdueClocked clock ts (k + 1)).1,
       (overdueClocked clock ts (k + 1)).2)

/-- The number of tasks whose due date is present, hence the number of
clock reads the overdue comprehension performs. -/
def dueCount (tasks : List TaskItem) : ℕ := (tasks.filter (fun t => t.dueDate.isSome)).length

/-- generate_insights against an explicit clock stream: only the overdue
check reads the clock; the other two checks are clock-free. -/
def generateInsightsClocked (clock : ℕ → ℤ) (tasks : List TaskItem) : List AIInsight :=
  (if 0 < (overdueClocked clock tasks 0).1.length then
    [⟨"warning", overdueMsg (overdueClocked clock tasks 0).1.length, none⟩]
   else []) ++
  (if 5 < (tasks.filter noDuePred).length then
    [⟨"suggestion", noDatesMsg (tasks.filter noDuePred).length, none⟩]
   else []) ++
  (if tasks ≠ [] ∧ 4 * tasks.length < 5 * completedCount tasks then
    [⟨"tip", tipMsg (completedPct tasks), none⟩]
   else [])

/-- dateutil.parser.parse as a raising operation: none becomes a raised
exception. -/
def tryParseE (dparse : Str → Option ℤ) (g : Str) : Except Unit ℤ :=
  match dparse g with
  | some d => Except.ok d
  | none => Except.error ()

/-- The pattern-loop body with the explicit try/except: a successful parse
breaks out with the date, the except-pass arm drops the candidate and
continues with the rest of the loop. -/
def scanStepE (dparse : Str → Option ℤ) (m : Option Str) (k : Except Unit (Option ℤ)) :
    Except Unit (Option ℤ) :=
  match m with
  | none => k
  | some g =>
    match tryParseE dparse g with
    | Except.ok d => Except.ok (some d)
    | Except.error _ => k

/-- The date-pattern loop in the exception-explicit model. -/
def scanDatePatternsE (dparse : Str → Option ℤ) (s : Str) : Except Unit (Option ℤ) :=
  scanStepE dparse (searchPat matchSlashDate s)
    (scanStepE dparse (searchPat matchIsoDate s)
      (scanStepE dparse (searchPat matchMonthDate s) (Except.ok none)))

/-- Due-date extraction in the exception-explicit model. -/
def extractDueDateE (dparse : Str → Option ℤ) (now : ℤ) (s : Str) : Except Unit (Option ℤ) :=
  if containsSub ("today".toList) s then Except.ok (some now)
  else if containsSub ("tomorrow".toList) s then Except.ok (some (now + dayU))
  else if containsSub ("next week".toList) s then Except.ok (some (now + 7 * dayU))
  else if containsSub ("next month".toList) s then Except.ok (some (now + 30 * dayU))
  else scanDatePatternsE dparse s

/-- parse_natural_language in the exception-explicit model: an uncaught
exception escaping the due-date scan would propagate out of the function;
every other extractor is total. -/
def parse_natural_languageE (dparse : Str → Option ℤ) (now : ℤ) (text : Str) :
    Except Unit ParsedTask :=
  match extractDueDateE dparse now (lower text) with
  | Except.error e => Except.error e
  | Except.ok dd =>
    Except.ok
      { title := if cleanTitle text = [] then text else cleanTitle text
        priority := detectPriority (lower text)
        tags := detectTags (lower text)
        dueDate := dd
        estimatedTime := extractEstimatedTime (lower text)
        status := "pending"
        aiSuggested := true }

/-- A word-boundary-delimited, case-insensitive occurrence of the phrase w
somewhere in s; this is the semantics the specification ascribes to the
relative-date phrase detection, and the one the title-cleanup re.sub
actually uses. -/
def hasBounded (w : Str) : Bool → Str → Bool
  | _, [] => false
  | prev, c :: rest =>
    ((prev != isWordChar c) && headMatchesCI w (c :: rest) && wordEndOk w (c :: rest)) ||
      hasBounded w (isWordChar c) rest

def hasBoundedOccurrence (w s : Str) : Bool := hasBounded w false s

/-- The joint no-signal condition on the lowercased input: no priority
keyword, no tag keyword, no relative-date phrase, no match of any of the
three date patterns, and no duration pattern. -/
def hasAnySignal (s : Str) : Bool :=
  anyKw urgentKws s || anyKw highKws s || anyKw lowKws s ||
  anyKw studyKws s || anyKw workKws s || anyKw personalKws s || anyKw healthKws s ||
  anyKw datePhraseKws s ||
  (searchPat matchSlashDate s).isSome || (searchPat matchIsoDate s).isSome ||
  (searchPat matchMonthDate s).isSome || (searchPat matchDuration s).isSome

lemma insertDesc_perm (x : ScheduleSuggestion) (l : List ScheduleSuggestion) :
    (insertDesc x l).Perm (x :: l) := by
  induction l with
  | nil => simp [insertDesc]
  | cons y ys ih =>
    by_cases h : y.score ≤ x.score
    · simp [insertDesc, h]
    · rw [insertDesc, if_neg h]
      exact (ih.cons y).trans (List.Perm.swap x y ys)

lemma insertDesc_sorted (x : ScheduleSuggestion) (l : List ScheduleSuggestion)
    (h : l.Pairwise (fun a b => b.score ≤ a.score)) :
    (insertDesc x l).Pairwise (fun a b => b.score ≤ a.score) := by
  induction l with
  | nil => simp [insertDesc]
  | cons y ys ih =>
    rcases List.pairwise_cons.1 h with ⟨hy, hys⟩
    by_cases hxy : y.score ≤ x.score
    · rw [insertDesc, if_pos hxy]
      refine List.pairwise_cons.2 ⟨?_, h⟩
      intro z hz
      rcases List.mem_cons.1 hz with rfl | hz'
      · exact hxy
      · exact le_trans (hy z hz') hxy
    · rw [insertDesc, if_neg hxy]
      refine List.pairwise_cons.2 ⟨?_, ih hys⟩
      intro z hz
      rcases List.mem_cons.1 ((insertDesc_perm x ys).mem_iff.1 hz) with rfl | hz'
      · exact le_of_lt (not_le.1 hxy)
      · exact hy z hz'

lemma sortDesc_perm (l : List ScheduleSuggestion) : (sortDesc l).Perm l := by
  induction l with
  | nil => simp [sortDesc]
  | cons x xs ih => exact (insertDesc_perm x (sortDesc xs)).trans (ih.cons x)

lemma sortDesc_sorted (l : List ScheduleSuggestion) :
    (sortDesc l).Pairwise (fun a b => b.score ≤ a.score) := by
  induction l with
  | nil => simp [sortDesc]
  | cons x xs ih => exact insertDesc_sorted x (sortDesc xs) ih

/-- Stability of the insertion step, expressed per score class: inserting
x never reorders the elements of any fixed score, because x only moves
past strictly greater scores. -/
lemma insertDesc_filter (x : ScheduleSuggestion) (l : List ScheduleSuggestion) (s : ℤ) :
    (insertDesc x l).filter (fun y => y.score == s)
      = if x.score = s then x :: l.filter (fun y => y.score == s)
        else l.filter (fun y => y.score == s) := by
  induction l with
  | nil =>
    by_cases hx : x.score = s
    · have hb : (x.score == s) = true := beq_iff_eq.2 hx
      simp [insertDesc, List.filter, hb, hx]
    · have hb : (x.score == s) = false := beq_eq_false_iff_ne.2 hx
      simp [insertDesc, List.filter, hb, hx]
  | cons y ys ih =>
    by_cases h : y.score ≤ x.score
    · rw [insertDesc, if_pos h]
      by_cases hx : x.score = s <;> simp [List.filter_cons, beq_iff_eq, hx]
    · rw [insertDesc, if_neg h]
      rw [List.filter_cons, List.filter_cons, ih]
      by_cases hx : x.score = s
      · have hy : ¬ y.score = s := by
          intro hys
          exact h (le_of_eq (hx ▸ hys))
        simp [hx, hy]
      · simp [hx]

/-- Stability of the full sort, per score class: sorting never reorders
elements of equal score. -/
lemma sortDesc_filter (l : List ScheduleSuggestion) (s : ℤ) :
    (sortDesc l).filter (fun y => y.score == s) = l.filter (fun y => y.score == s) := by
  induction l with
  | nil => simp [sortDesc]
  | cons x xs ih =>
    rw [sortDesc, insertDesc_filter, List.filter_cons, ih]
    by_cases hx : x.score = s <;> simp [hx]

/-- Claim C4: for every priority and tag-set combination,
get_schedule_suggestions returns at most 3 suggestions, sorted by score
in descending order, and the sort is stable: within each score class the
output is a prefix of the candidates in their original generation order,
so ties keep the generation order. -/
theorem spec_C4 (t : TaskItem) (now : ℤ) :
    (get_schedule_suggestions t now).length ≤ 3 ∧
    (get_schedule_suggestions t now).Pairwise (fun a b => b.score ≤ a.score) ∧
    ∀ s : ℤ, ∃ rest,
      (get_schedule_suggestions t now).filter (fun y => y.score == s) ++ rest
        = (scheduleCandidates t now).filter (fun y => y.score == s) := by
  refine ⟨?_, ?_, ?_⟩
  · rw [get_schedule_suggestions, List.length_take]
    exact min_le_left _ _
  · rw [get_schedule_suggestions]
    exact List.Pairwise.sublist (List.take_sublist _ _) (sortDesc_sorted _)
  · intro s
    refine ⟨((sortDesc (scheduleCandidates t now)).drop 3).filter (fun y => y.score == s), ?_⟩
    rw [get_schedule_suggestions, ← List.filter_append, List.take_append_drop, sortDesc_filter]

/-- Claim C10: the schedule suggestions are never empty, their number is
exactly one priority candidate plus one per present study or work tag,
and the cap of three never discards a generated candidate: the output is
a permutation of the full candidate list. -/
theorem spec_C10 (t : TaskItem) (now : ℤ) :
    get_schedule_suggestions t now ≠ [] ∧
    (get_schedule_suggestions t now).length
      = 1 + (if "study" ∈ t.tags then 1 else 0) + (if "work" ∈ t.tags then 1 else 0) ∧
    (get_schedule_suggestions t now).Perm (scheduleCandidates t now) := by
  have hlen : (scheduleCandidates t now).length
      = 1 + (if "study" ∈ t.tags then 1 else 0) + (if "work" ∈ t.tags then 1 else 0) := by
    rw [scheduleCandidates]
    split_ifs <;> simp
  have hs : (sortDesc (scheduleCandidates t now)).length = (scheduleCandidates t now).length :=
    (sortDesc_perm _).length_eq
  have h3 : (sortDesc (scheduleCandidates t now)).length ≤ 3 := by
    rw [hs, hlen]
    split_ifs <;> norm_num
  have htake : get_schedule_suggestions t now = sortDesc (scheduleCandidates t now) := by
    rw [get_schedule_suggestions]
    exact List.take_of_length_le h3
  have hL : (get_schedule_suggestions t now).length
      = 1 + (if "study" ∈ t.tags then 1 else 0) + (if "work" ∈ t.tags then 1 else 0) := by
    rw [htake, hs, hlen]
  refine ⟨?_, hL, ?_⟩
  · intro hnil
    rw [hnil] at hL
    simp only [List.length_nil] at hL
    split_ifs at hL
    all_goals omega
  · rw [htake]
    exact sortDesc_perm _

/-- Claim C5: for every priority and estimated duration,
get_deadline_suggestions returns exactly 2 suggestions, and whenever the
estimated time exceeds 240 minutes both suggestions are the un-adjusted
table entries for that priority tier with the date pushed exactly 2 days
and the complexity suffix appended to the reason. -/
theorem spec_C5 (priority : String) (est now : ℤ) :
    (get_deadline_suggestions priority est now).length = 2 ∧
    (est > 240 → get_deadline_suggestions priority est now
      = (deadline_base priority now).map complexAdjust) := by
  have hb : (deadline_base priority now).length = 2 := by
    rw [deadline_base]
    split_ifs
    all_goals rfl
  constructor
  · rw [get_deadline_suggestions]
    split_ifs with h
    · rw [List.length_map]
      exact hb
    · exact hb
  · intro h
    rw [get_deadline_suggestions, if_pos h]

theorem spec_C5_witness :
    (get_deadline_suggestions "urgent" 300 0).length = 2 ∧
    get_deadline_suggestions "urgent" 300 0 = (deadline_base "urgent" 0).map complexAdjust :=
  ⟨(spec_C5 "urgent" 300 0).1, (spec_C5 "urgent" 300 0).2 (by norm_num)⟩

/-- Claim C6: the reminder-offset table is exactly urgent [5, 15, 60],
high [15, 60, 240], medium [30, 120, 1440], low [60, 1440], and every
priority string outside these four falls back to the medium row. -/
theorem spec_C6 :
    calculate_smart_reminder_minutes "urgent" = [5, 15, 60] ∧
    calculate_smart_reminder_minutes "high" = [15, 60, 240] ∧
    calculate_smart_reminder_minutes "medium" = [30, 120, 1440] ∧
    calculate_smart_reminder_minutes "low" = [60, 1440] ∧
    ∀ p : String, p ≠ "urgent" → p ≠ "high" → p ≠ "medium" → p ≠ "low" →
      calculate_smart_reminder_minutes p = [30, 120, 1440] := by
  refine ⟨by decide, by decide, by decide, by decide, ?_⟩
  intro p h1 h2 h3 h4
  have e1 : (p == "urgent") = false := beq_eq_false_iff_ne.2 h1
  have e2 : (p == "high") = false := beq_eq_false_iff_ne.2 h2
  have e3 : (p == "medium") = false := beq_eq_false_iff_ne.2 h3
  have e4 : (p == "low") = false := beq_eq_false_iff_ne.2 h4
  simp [calculate_smart_reminder_minutes, reminder_rules, List.lookup, e1, e2, e3, e4]

theorem spec_C6_witness : calculate_smart_reminder_minutes "unknown" = [30, 120, 1440] :=
  spec_C6.2.2.2.2 "unknown" (by decide) (by decide) (by decide) (by decide)

/-- Claim C7: on the empty task collection the insight generator emits
nothing, and a completion tip can only ever be emitted for a non-empty
collection, so the completion-ratio division is only reached with a
non-zero total count. -/
theorem spec_C7 (now : ℤ) (tasks : List TaskItem) :
    (tasks = [] → generate_insights tasks now = []) ∧
    ∀ i : AIInsight, i ∈ generate_insights tasks now → i.type = "tip" → tasks ≠ [] := by
  constructor
  · intro h
    subst h
    simp [generate_insights]
  · intro i hi htip hnil
    subst hnil
    simp [generate_insights] at hi

theorem spec_C7_witness :
    generate_insights [] 0 = [] ∧
    ([⟨"medium", [], "completed", none⟩] : List TaskItem) ≠ [] := by
  refine ⟨(spec_C7 0 []).1 rfl, ?_⟩
  exact (spec_C7 0 [⟨"medium", [], "completed", none⟩]).2
    ⟨"tip", tipMsg 100, none⟩ (by decide) rfl

/-- The clock index after the overdue comprehension: one read per task
with a present due date, independent of the clock values themselves. -/
lemma overdueClocked_counter (clock : ℕ → ℤ) (tasks : List TaskItem) :
    ∀ k : ℕ, (overdueClocked clock tasks k).2 = k + dueCount tasks := by
  induction tasks with
  | nil =>
    intro k
    simp [overdueClocked, dueCount]
  | cons t ts ih =>
    intro k
    cases hd : t.dueDate with
    | none =>
      simp [overdueClocked, hd, dueCount, List.filter_cons, ih]
    | some d =>
      simp only [overdueClocked, hd, ih]
      simp [dueCount, List.filter_cons, hd]
      omega

/-- Under a constant clock the comprehension coincides with the fixed-now
filter, and the counter advances by the number of tasks with due dates. -/
lemma overdueClocked_const (now : ℤ) (tasks : List TaskItem) :
    ∀ k : ℕ, overdueClocked (fun _ => now) tasks k
      = (tasks.filter (overduePred now), k + dueCount tasks) := by
  induction tasks with
  | nil =>
    intro k
    simp [overdueClocked, dueCount]
  | cons t ts ih =>
    intro k
    cases hd : t.dueDate with
    | none =>
      simp [overdueClocked, hd, dueCount, List.filter_cons, overduePred, ih]
    | some d =>
      simp only [overdueClocked, hd, ih]
      simp only [List.filter_cons, overduePred, hd, Prod.mk.injEq]
      refine ⟨trivial, ?_⟩
      simp [dueCount, List.filter_cons, hd]
      omega
/-- Claim C9 (amended): the insight generator reads the clock once per
task with a present due date, not once per invocation; its output is a
deterministic function of the inputs and the sequence of clock values,
and whenever every read returns the same value the result coincides with
the fixed-now generator, so two runs over a constant clock agree.  The
parser, the schedule scorer and the deadline generator capture now once
by construction. -/
theorem spec_C9 (clock : ℕ → ℤ) (tasks : List TaskItem) (k : ℕ) :
    (overdueClocked clock tasks k).2 = k + dueCount tasks ∧
    ∀ now : ℤ, generateInsightsClocked (fun _ => now) tasks = generate_insights tasks now := by
  refine ⟨overdueClocked_counter clock tasks k, ?_⟩
  intro now
  rw [generateInsightsClocked, generate_insights, overdueClocked_const now tasks 0]

/-- Claim C9 fails as stated: with two pending tasks both having due
dates, the overdue comprehension reads the clock twice, not once, and two
clock streams that agree on the first read (the single captured now of
the claim) can produce different outputs. -/
theorem spec_C9_counterexample :
    (overdueClocked (fun k => if k = 0 then (10 : ℤ) else -10)
        [⟨"medium", [], "pending", some 0⟩, ⟨"medium", [], "pending", some 0⟩] 0).2 = 2 ∧
    (2 : ℕ) ≠ 1 ∧
    (fun k => if k = 0 then (10 : ℤ) else -10) 0 = (fun _ => (10 : ℤ)) 0 ∧
    generateInsightsClocked (fun k => if k = 0 then (10 : ℤ) else -10)
        [⟨"medium", [], "pending", some 0⟩, ⟨"medium", [], "pending", some 0⟩]
      ≠ generateInsightsClocked (fun _ => (10 : ℤ))
        [⟨"medium", [], "pending", some 0⟩, ⟨"medium", [], "pending", some 0⟩] := by
  exact ⟨by decide, by decide, by decide, by decide⟩

lemma scanStepE_ok (dparse : Str → Option ℤ) (m : Option Str) (k : Option ℤ) :
    scanStepE dparse m (Except.ok k) = Except.ok (scanStep dparse m k) := by
  cases m with
  | none => rfl
  | some g =>
    cases h : dparse g with
    | none => simp [scanStepE, scanStep, tryParseE, h]
    | some d => simp [scanStepE, scanStep, tryParseE, h]

lemma scanDatePatternsE_ok (dparse : Str → Option ℤ) (s : Str) :
    scanDatePatternsE dparse s = Except.ok (scanDatePatterns dparse s) := by
  rw [scanDatePatternsE, scanDatePatterns, scanStepE_ok, scanStepE_ok, scanStepE_ok]

lemma extractDueDateE_ok (dparse : Str → Option ℤ) (now : ℤ) (s : Str) :
    extractDueDateE dparse now s = Except.ok (extractDueDate dparse now s) := by
  rw [extractDueDateE, extractDueDate]
  split_ifs
  · rfl
  · rfl
  · rfl
  · rfl
  · exact scanDatePatternsE_ok dparse s

/-- Claim C8: in the exception-explicit model, parsing never fails for
any input: the only raising operation is the date parse, its failure is
caught inside the pattern loop, and when the first pattern finds a match
whose parse fails the scan continues with the remaining two patterns. -/
theorem spec_C8 (dparse : Str → Option ℤ) (now : ℤ) (text g : Str)
    (h1 : searchPat matchSlashDate (lower text) = some g)
    (h2 : dparse g = none) :
    (∀ t : Str, parse_natural_languageE dparse now t
        = Except.ok (parse_natural_language dparse now t)) ∧
    scanDatePatterns dparse (lower text)
      = scanStep dparse (searchPat matchIsoDate (lower text))
          (scanStep dparse (searchPat matchMonthDate (lower text)) none) := by
  constructor
  · intro t
    rw [parse_natural_languageE, extractDueDateE_ok]
    rfl
  · rw [scanDatePatterns, h1]
    simp [scanStep, h2]

theorem spec_C8_witness :
    parse_natural_languageE (fun _ => none) 0 ("due 1/2/34".toList)
        = Except.ok (parse_natural_language (fun _ => none) 0 ("due 1/2/34".toList)) ∧
    scanDatePatterns (fun _ => none) (lower ("due 1/2/34".toList))
      = scanStep (fun _ => none) (searchPat matchIsoDate (lower ("due 1/2/34".toList)))
          (scanStep (fun _ => none)
            (searchPat matchMonthDate (lower ("due 1/2/34".toList))) none) := by
  have h := spec_C8 (fun _ => none) 0 ("due 1/2/34".toList) ("1/2/34".toList)
    (by decide) rfl
  exact ⟨h.1 ("due 1/2/34".toList), h.2⟩

/-- Claim C1: priority keyword groups are tested in fixed precedence
order, the first matching group wins, and in particular any text whose
lowercase form contains both urgent and low priority resolves to
urgent. -/
theorem spec_C1 (dparse : Str → Option ℤ) (now : ℤ) (text : Str)
    (h1 : containsSub ("urgent".toList) (lower text) = true)
    (h2 : containsSub ("low priority".toList) (lower text) = true) :
    (parse_natural_language dparse now text).priority = "urgent" ∧
    ∀ t : Str,
      (anyKw urgentKws t = true → detectPriority t = "urgent") ∧
      (anyKw urgentKws t = false → anyKw highKws t = true → detectPriority t = "high") ∧
      (anyKw urgentKws t = false → anyKw highKws t = false → anyKw lowKws t = true →
        detectPriority t = "low") ∧
      (anyKw urgentKws t = false → anyKw highKws t = false → anyKw lowKws t = false →
        detectPriority t = "medium") := by
  constructor
  · have hu : anyKw urgentKws (lower text) = true := by
      rw [anyKw, List.any_eq_true]
      exact ⟨"urgent".toList, by decide, h1⟩
    simp [parse_natural_language, detectPriority, hu]
  · intro t
    refine ⟨?_, ?_, ?_, ?_⟩
    · intro ha
      simp [detectPriority, ha]
    · intro ha hb
      simp [detectPriority, ha, hb]
    · intro ha hb hc
      simp [detectPriority, ha, hb, hc]
    · intro ha hb hc
      simp [detectPriority, ha, hb, hc]

theorem spec_C1_witness :
    (parse_natural_language (fun _ => none) 0 ("urgent low priority".toList)).priority
      = "urgent" :=
  (spec_C1 (fun _ => none) 0 ("urgent low priority".toList) (by decide) (by decide)).1

/-- Claim C2 (amended): the relative-date phrases are matched by plain
substring containment with no word-boundary check, so a phrase occurring
only embedded in a larger word still sets the due date: any text whose
lowercase form contains tomorrow and not today gets due date now plus one
day. -/
theorem spec_C2 (dparse : Str → Option ℤ) (now : ℤ) (text : Str)
    (h1 : containsSub ("today".toList) (lower text) = false)
    (h2 : containsSub ("tomorrow".toList) (lower text) = true) :
    (parse_natural_language dparse now text).dueDate = some (now + dayU) := by
  show extractDueDate dparse now (lower text) = some (now + dayU)
  rw [extractDueDate, if_neg (by rw [Bool.not_eq_true]; exact h1), if_pos h2]

theorem spec_C2_witness :
    (parse_natural_language (fun _ => none) 0 ("tomorrowland".toList)).dueDate
      = some (0 + dayU) :=
  spec_C2 (fun _ => none) 0 ("tomorrowland".toList) (by decide) (by decide)

/-- Claim C2 fails as stated: in tomorrowland the phrase tomorrow occurs
only embedded in a larger word, with no word-boundary-delimited
occurrence, yet the due date is set from it. -/
theorem spec_C2_counterexample :
    containsSub ("tomorrow".toList) (lower ("tomorrowland".toList)) = true ∧
    hasBoundedOccurrence ("tomorrow".toList) (lower ("tomorrowland".toList)) = false ∧
    (parse_natural_language (fun _ => none) 0 ("tomorrowland".toList)).dueDate ≠ none := by
  exact ⟨by decide, by decide, by decide⟩

lemma headMatchesCI_eq_lower (w : Str) : ∀ s : Str, headMatchesCI w s = headMatches w (lower s) := by
  induction w with
  | nil =>
    intro s
    cases s with
    | nil => rfl
    | cons b s2 => rfl
  | cons a w ih =>
    intro s
    cases s with
    | nil => rfl
    | cons b s2 =>
      simp only [headMatchesCI, lower, List.map_cons, headMatches]
      rw [show List.map Char.toLower s2 = lower s2 from rfl, ih s2]

lemma isSome_false_none {α : Type} {o : Option α} (h : o.isSome = false) : o = none := by
  cases o with
  | none => rfl
  | some a => simp [Option.isSome] at h

/-- A keyword absent from the lowercased string is left untouched by the
boundary-checked removal scan, whatever the fuel and left context. -/
lemma goRemove_id (w : Str) :
    ∀ (f : ℕ) (prev : Bool) (s : Str), containsSub w (lower s) = false →
      goRemove w f prev s = s := by
  intro f
  induction f with
  | zero =>
    intro prev s h
    rfl
  | succ f ih =>
    intro prev s h
    cases s with
    | nil => rfl
    | cons c rest =>
      simp only [lower, List.map_cons, containsSub, Bool.or_eq_false_iff] at h
      have hci : headMatchesCI w (c :: rest) = false := by
        rw [headMatchesCI_eq_lower]
        simpa [lower] using h.1
      simp only [goRemove, hci, Bool.and_false, Bool.false_and, Bool.false_eq_true,
        if_false, List.cons.injEq, true_and]
      exact ih (isWordChar c) rest (by simpa [lower] using h.2)

lemma removeWord_id (w s : Str) (h : containsSub w (lower s) = false) : removeWord w s = s :=
  goRemove_id w s.length false s h

lemma removeFold_id : ∀ (ws : List Str) (s : Str),
    (∀ w ∈ ws, containsSub w (lower s) = false) →
    ws.foldl (fun t w => removeWord w t) s = s := by
  intro ws
  induction ws with
  | nil =>
    intro s h
    rfl
  | cons w ws ih =>
    intro s h
    rw [List.foldl_cons, removeWord_id w s (h w (List.mem_cons_self w ws))]
    exact ih s (fun v hv => h v (List.mem_cons_of_mem w hv))

/-- Claim C3 (amended): on input with no signal of any table the parser
returns priority medium, no tags, no due date, no estimated time, and a
title equal to the input with whitespace runs collapsed to single spaces
and stripped at both ends (falling back to the raw input when that
cleanup leaves nothing). -/
theorem spec_C3 (dparse : Str → Option ℤ) (now : ℤ) (text : Str)
    (h : hasAnySignal (lower text) = false) :
    (parse_natural_language dparse now text).priority = "medium" ∧
    (parse_natural_language dparse now text).tags = [] ∧
    (parse_natural_language dparse now text).dueDate = none ∧
    (parse_natural_language dparse now text).estimatedTime = none ∧
    (parse_natural_language dparse now text).title
      = (if pyStrip (joinSpace (pySplit text)) = [] then text
         else pyStrip (joinSpace (pySplit text))) := by
  simp only [hasAnySignal, Bool.or_eq_false_iff] at h
  obtain ⟨⟨⟨⟨⟨⟨⟨⟨⟨⟨⟨hu, hh⟩, hl⟩, hst⟩, hwk⟩, hp⟩, hhe⟩, hd⟩, hs1⟩, hs2⟩, hs3⟩, hs4⟩ := h
  have hun := hu
  have hhn := hh
  have hln := hl
  have hdn := hd
  simp only [anyKw, urgentKws, List.map_cons, List.map_nil, List.any_cons, List.any_nil,
    Bool.or_eq_false_iff] at hun
  simp only [anyKw, highKws, List.map_cons, List.map_nil, List.any_cons, List.any_nil,
    Bool.or_eq_false_iff] at hhn
  simp only [anyKw, lowKws, List.map_cons, List.map_nil, List.any_cons, List.any_nil,
    Bool.or_eq_false_iff] at hln
  simp only [anyKw, datePhraseKws, List.map_cons, List.map_nil, List.any_cons, List.any_nil,
    Bool.or_eq_false_iff] at hdn
  refine ⟨?_, ?_, ?_, ?_, ?_⟩
  · show detectPriority (lower text) = "medium"
    simp [detectPriority, hu, hh, hl]
  · show detectTags (lower text) = []
    simp [detectTags, hst, hwk, hp, hhe]
  · show extractDueDate dparse now (lower text) = none
    have hn1 := isSome_false_none hs1
    have hn2 := isSome_false_none hs2
    have hn3 := isSome_false_none hs3
    simp only [extractDueDate, hdn.1, hdn.2.1, hdn.2.2.1, hdn.2.2.2, Bool.false_eq_true,
      if_false, scanDatePatterns, hn1, hn2, hn3, scanStep]
  · show extractEstimatedTime (lower text) = none
    have hn4 := isSome_false_none hs4
    simp only [extractEstimatedTime, hn4]
  · have hrw : ∀ w ∈ remove_words, containsSub w (lower text) = false := by
      intro w hw
      simp only [remove_words, List.map_cons, List.map_nil, List.mem_cons,
        List.not_mem_nil, or_false] at hw
      rcases hw with rfl | rfl | rfl | rfl | rfl | rfl | rfl | rfl | rfl | rfl
      · exact hun.1
      · exact hun.2.1
      · exact hhn.1
      · exact hln.1
      · exact hdn.1
      · exact hdn.2.1
      · exact hdn.2.2.1
      · exact hdn.2.2.2.1
      · exact hhn.2.1
      · exact hun.2.2.1
    simp only [parse_natural_language]
    rw [cleanTitle, removeFold_id remove_words text hrw]

theorem spec_C3_witness :
    (parse_natural_language (fun _ => none) 0 ("hello there".toList)).priority = "medium" :=
  (spec_C3 (fun _ => none) 0 ("hello there".toList) (by decide)).1

/-- Claim C3 fails as stated on input with interior whitespace runs: the
code collapses internal whitespace, so the title differs from the merely
trimmed input even though the input carries no signal at all. -/
theorem spec_C3_counterexample :
    hasAnySignal (lower ("a  b".toList)) = false ∧
    pyStrip ("a  b".toList) = "a  b".toList ∧
    (parse_natural_language (fun _ => none) 0 ("a  b".toList)).title
      ≠ pyStrip ("a  b".toList) := by
  exact ⟨by decide, by decide, by decide⟩

